import Mathlib

/-!
Shallow embedding of `app/sampleresolver.py` from the sagittariidae
repository: token-based sample search scoped to a project.

The persistence layer (`models`, SQLAlchemy queries) is not part of the
embedded file; it is represented abstractly as a record of query functions
that the three concrete resolver classes delegate to, each of which may
fail (a raised exception is modelled as `Except.error`).
-/

namespace Sagittariidae

/-- A persisted sample entity, with the three fields read by
`_HashableSample_.__key__`: `id`, `obfuscated_id` and `_project_id`. -/
structure Sample where
  id : Nat
  obfuscated_id : String
  project_id : Nat
deriving DecidableEq, Repr

/-- The composite identity of a persisted sample:
the tuple `(id, obfuscated_id, _project_id)`. -/
abbrev IdentityKey := Nat × String × Nat

/-- `_HashableSample_.__key__`: the tuple of the three identity fields. -/
def Sample.key (s : Sample) : IdentityKey :=
  (s.id, s.obfuscated_id, s.project_id)

/-- `_HashableSample_`: a hashable wrapper around a `Sample`; hashing and
equality are by `__key__`. -/
structure HashableSample where
  sample : Sample
deriving DecidableEq, Repr

/-- The key of a wrapped sample. -/
def HashableSample.key (h : HashableSample) : IdentityKey :=
  h.sample.key

/-- `_HashableSample_.__hash__`: the hash of the `__key__` tuple. -/
def HashableSample.hashVal (h : HashableSample) : UInt64 :=
  hash h.key

/-- A Python error surfacing from `_HashableSample_.__eq__`. -/
inductive PyError
  | attributeError
deriving DecidableEq, Repr

/-- A Python object as seen by `_HashableSample_.__eq__`: all that is
consulted is its `__key__` method, which the object may lack
(`keyMethod = none`), in which case the attribute lookup raises. -/
structure PyObj where
  keyMethod : Option IdentityKey
deriving DecidableEq, Repr

/-- The `__key__` view of a wrapped sample as a Python object. -/
def HashableSample.toPyObj (h : HashableSample) : PyObj :=
  ⟨some h.key⟩

/-- `_HashableSample_.__eq__`: `self.__key__() == o.__key__()`.  Looking up
`__key__` on an object without that method raises `AttributeError`. -/
def HashableSample.pyEq (h : HashableSample) (o : PyObj) : Except PyError Bool :=
  match o.keyMethod with
  | none => .error .attributeError
  | some k => .ok (decide (h.key = k))

/-- Errors at the resolver layer: an exception raised by a persistence
query, or `models.get_project` failing to resolve a project id. -/
inductive ResolverError
  | queryFailed (msg : String)
  | projectNotFound
deriving DecidableEq, Repr

/-- A project; the resolvers only read its `id`. -/
structure Project where
  id : Nat
deriving DecidableEq, Repr

/-- The interface of a `_Resolver_` subclass's `resolve(token, project_id)`:
it queries the persistence layer and either returns a list of samples
(possibly with repeats, e.g. one sample reached through several stages) or
raises. -/
abbrev Matcher := String → Nat → Except ResolverError (List Sample)

/-- The persistence collaborator (`models` + SQLAlchemy session).  Each
query field receives the ILIKE pattern and the project id that the
corresponding resolver class passes to the session, and returns the
matching samples (scoped to the project) or raises.
`get_project` is `models.get_project(obfuscated_id=...)`.
Modelled from the spec for the part outside the embedded file:
`get_project` raises `ProjectNotFound` when the externally-facing project
id resolves to no project, and returns the project otherwise. -/
structure Models where
  sampleNameQuery : String → Nat → Except ResolverError (List Sample)
  stageMethodQuery : String → Nat → Except ResolverError (List Sample)
  stageAnnotationQuery : String → Nat → Except ResolverError (List Sample)
  get_project : String → Except ResolverError Project

/-- `_SampleNameResolver_.resolve`: samples of the project whose name is
ILIKE the pattern. -/
def SampleNameResolver.resolve (m : Models) : Matcher :=
  m.sampleNameQuery

/-- `_StageMethodResolver_.resolve`: samples of the project with a stage
whose method name is ILIKE the pattern. -/
def StageMethodResolver.resolve (m : Models) : Matcher :=
  m.stageMethodQuery

/-- `_StageAnnotationResolver_.resolve`: samples of the project with a
stage whose annotation is ILIKE the pattern. -/
def StageAnnotationResolver.resolve (m : Models) : Matcher :=
  m.stageAnnotationQuery

/-- `_RESOLVER_TYPES_`: the registered resolver classes, in source order. -/
def RESOLVER_TYPES (m : Models) : List Matcher :=
  [SampleNameResolver.resolve m,
   StageMethodResolver.resolve m,
   StageAnnotationResolver.resolve m]

/-- `set.add` on a Python set of `_HashableSample_`: membership is decided
by `__eq__`, i.e. by key; an element whose key is already present is not
added again.  The set is modelled as the list of its elements. -/
def addSample (acc : List HashableSample) (x : HashableSample) : List HashableSample :=
  if acc.any (fun y => decide (y.key = x.key)) then acc else acc ++ [x]

/-- `_Resolver_.run`: build `self.results` by adding the wrapped samples
one by one; any exception from `resolve` is caught and logged, leaving the
results empty. -/
def Resolver.run (resolve : Matcher) (token : String) (projectId : Nat) :
    List HashableSample :=
  match resolve token projectId with
  | .ok samples => samples.foldl (fun acc s => addSample acc ⟨s⟩) []
  | .error _ => []

/-- `union | s` on Python sets of `_HashableSample_`: start from the left
set and add each element of the right one. -/
def unionSets (a b : List HashableSample) : List HashableSample :=
  b.foldl addSample a

/-- `intersection & s` on Python sets of `_HashableSample_`: the elements
of the left set whose key occurs in the right one. -/
def interSets (a b : List HashableSample) : List HashableSample :=
  a.filter (fun x => b.any (fun y => decide (y.key = x.key)))

/-- `SampleTokenResolver.resolve`, parameterised by the list of matchers:
wrap the token as `'%%%s%%' % token`, run every matcher on it, and union
the per-matcher result sets (`reduce(lambda union, s: union | s, ..., set())`). -/
def SampleTokenResolver.resolveWith (matchers : List Matcher) (project : Project)
    (token : String) : List HashableSample :=
  let pattern := "%" ++ token ++ "%"
  let candidate_results := matchers.map (fun r => Resolver.run r pattern project.id)
  candidate_results.foldl unionSets []

/-- `SampleTokenResolver.resolve` with the registered `_RESOLVER_TYPES_`. -/
def SampleTokenResolver.resolve (m : Models) (project : Project) (token : String) :
    List HashableSample :=
  SampleTokenResolver.resolveWith (RESOLVER_TYPES m) project token

/-- `SampleResolver.resolve`, parameterised by the project lookup and the
matchers: resolve the project, resolve each token, keep only the NON-EMPTY
per-token sets, and if any remain return the intersection of those,
unwrapped; otherwise return `[]`. -/
def SampleResolver.resolveWith (get_project : String → Except ResolverError Project)
    (matchers : List Matcher) (tokens : List String) (projectId : String) :
    Except ResolverError (List Sample) := do
  let project ← get_project projectId
  let candidate_results :=
    (tokens.map (fun t => SampleTokenResolver.resolveWith matchers project t)).filter
      (fun s => decide (0 < s.length))
  match candidate_results with
  | [] => pure []
  | c :: cs => pure ((cs.foldl interSets c).map HashableSample.sample)

/-- `SampleResolver.resolve` against a persistence collaborator. -/
def SampleResolver.resolve (m : Models) (tokens : List String) (projectId : String) :
    Except ResolverError (List Sample) :=
  SampleResolver.resolveWith m.get_project (RESOLVER_TYPES m) tokens projectId

/-- The set of identity keys appearing in a set of wrapped samples. -/
def keySet (l : List HashableSample) : Finset IdentityKey :=
  (l.map HashableSample.key).toFinset

/-- The set of identity keys of a list of samples. -/
def sampleKeys (l : List Sample) : Finset IdentityKey :=
  (l.map Sample.key).toFinset

/-- Modelled from the spec: the `ilike` comparison of the persistence
collaborator (SQLAlchemy `Column.ilike`), which is not part of the
embedded file.  SQL LIKE pattern matching over characters, made
case-insensitive: `%` matches any run of characters, `_` matches exactly
one character, any other pattern character matches a single text character
up to case. -/
def likeMatch : List Char → List Char → Bool
  | [], s => s.isEmpty
  | p :: ps, s =>
    if p = '%' then
      s.tails.any (fun s' => likeMatch ps s')
    else
      match s with
      | [] => false
      | c :: s' => (if p = '_' then true else p.toLower == c.toLower) && likeMatch ps s'

/-- Characters lower-cased, the comparison ILIKE applies to literal
pattern characters. -/
def lowerChars (l : List Char) : List Char :=
  l.map Char.toLower

/-- A token free of SQL LIKE wildcard characters. -/
def noWildcard (t : List Char) : Bool :=
  t.all (fun c => decide (c ≠ '%' ∧ c ≠ '_'))

/-- Whether a resolution completed without a surfaced error. -/
def isOkResult : Except ResolverError (List Sample) → Bool
  | .ok _ => true
  | .error _ => false

/-- The candidate sets `SampleResolver.resolve` goes on to intersect: the
per-token result sets with the empty ones filtered out, in token order. -/
def candidateResults (matchers : List Matcher) (project : Project)
    (tokens : List String) : List (List HashableSample) :=
  (tokens.map (fun t => SampleTokenResolver.resolveWith matchers project t)).filter
    (fun s => decide (0 < s.length))

/-- The final sample list `SampleResolver.resolve` computes from its
candidate sets: the intersection of all of them, unwrapped, or `[]` when
there is none. -/
def intersectCandidates : List (List HashableSample) → List Sample
  | [] => []
  | c :: cs => (cs.foldl interSets c).map HashableSample.sample

/-- Spec-side definition (§4.4 step 3): the identity-based intersection of
a family of per-token key sets, empty for an empty family. -/
def interKeySets : List (Finset IdentityKey) → Finset IdentityKey
  | [] => ∅
  | c :: cs => cs.foldl (· ∩ ·) c

/-- Fixture: a persisted sample of project 7. -/
def s1 : Sample := ⟨1, "S1", 7⟩

/-- Fixture: a second persisted sample of project 7. -/
def s2 : Sample := ⟨2, "S2", 7⟩

/-- Fixture: a persistence collaborator with two samples in project 7,
token "alpha" matching both by name, "beta" matching only the second,
every other token matching nothing, and a single known project id "P7". -/
def demoModels : Models where
  sampleNameQuery := fun pat _ =>
    if pat = "%alpha%" then .ok [s1, s2]
    else if pat = "%beta%" then .ok [s2]
    else .ok []
  stageMethodQuery := fun _ _ => .ok []
  stageAnnotationQuery := fun _ _ => .ok []
  get_project := fun pid => if pid = "P7" then .ok ⟨7⟩ else .error .projectNotFound

/-- Fixture: a matcher whose query always raises. -/
def failingMatcher : Matcher := fun _ _ => .error (.queryFailed "boom")

/-- Fixture: a matcher that always returns the first fixture sample. -/
def constMatcher : Matcher := fun _ _ => .ok [s1]

/-! ### Key-set lemmas about the Python-set model -/

theorem mem_keySet {k : IdentityKey} {l : List HashableSample} :
    k ∈ keySet l ↔ ∃ h ∈ l, h.key = k := by
  simp [keySet]

theorem keySet_nil : keySet [] = ∅ := rfl

theorem keySet_cons (x : HashableSample) (l : List HashableSample) :
    keySet (x :: l) = insert x.key (keySet l) := by
  simp [keySet]

theorem keySet_eq_empty_iff {l : List HashableSample} :
    keySet l = ∅ ↔ l = [] := by
  cases l with
  | nil => simp [keySet]
  | cons x l => simp [keySet]

theorem keySet_addSample (acc : List HashableSample) (x : HashableSample) :
    keySet (addSample acc x) = insert x.key (keySet acc) := by
  unfold addSample
  split
  · rename_i hcond
    rcases List.any_eq_true.mp hcond with ⟨y, hy, hk⟩
    have hmem : x.key ∈ keySet acc :=
      mem_keySet.mpr ⟨y, hy, of_decide_eq_true hk⟩
    rw [Finset.insert_eq_self.mpr hmem]
  · ext k
    simp [keySet, or_comm]

theorem keySet_foldl_addSample (l : List HashableSample) (acc : List HashableSample) :
    keySet (l.foldl addSample acc) = keySet acc ∪ keySet l := by
  induction l generalizing acc with
  | nil => simp [keySet_nil]
  | cons x l ih =>
    simp only [List.foldl_cons, ih, keySet_addSample, keySet_cons,
      Finset.insert_union, Finset.union_insert]

theorem keySet_unionSets (a b : List HashableSample) :
    keySet (unionSets a b) = keySet a ∪ keySet b := by
  simpa [unionSets] using keySet_foldl_addSample b a

theorem keySet_interSets (a b : List HashableSample) :
    keySet (interSets a b) = keySet a ∩ keySet b := by
  ext k
  constructor
  · intro hk
    rcases mem_keySet.mp hk with ⟨x, hx, hxk⟩
    rcases List.mem_filter.mp hx with ⟨hxa, hp⟩
    rcases List.any_eq_true.mp hp with ⟨y, hy, hyk⟩
    have hyx : y.key = x.key := of_decide_eq_true hyk
    exact Finset.mem_inter.mpr
      ⟨mem_keySet.mpr ⟨x, hxa, hxk⟩, mem_keySet.mpr ⟨y, hy, hyx.trans hxk⟩⟩
  · intro hk
    rcases Finset.mem_inter.mp hk with ⟨ha, hb⟩
    rcases mem_keySet.mp ha with ⟨x, hx, hxk⟩
    rcases mem_keySet.mp hb with ⟨y, hy, hyk⟩
    refine mem_keySet.mpr ⟨x, List.mem_filter.mpr ⟨hx, ?_⟩, hxk⟩
    exact List.any_eq_true.mpr ⟨y, hy, decide_eq_true (hyk.trans hxk.symm)⟩

theorem sampleKeys_map_sample (l : List HashableSample) :
    sampleKeys (l.map HashableSample.sample) = keySet l := by
  simp [sampleKeys, keySet, List.map_map]
  rfl

/-- The keys a single `_Resolver_` run contributes: the keys the query
returned, or nothing at all when the query raised. -/
theorem keySet_run (r : Matcher) (pattern : String) (projectId : Nat) :
    keySet (Resolver.run r pattern projectId) =
      match r pattern projectId with
      | .ok samples => sampleKeys samples
      | .error _ => ∅ := by
  unfold Resolver.run
  cases hr : r pattern projectId with
  | ok samples =>
    dsimp only
    have : samples.foldl (fun acc s => addSample acc ⟨s⟩) [] =
        (samples.map (fun s => (⟨s⟩ : HashableSample))).foldl addSample [] := by
      rw [List.foldl_map]
    rw [this, keySet_foldl_addSample]
    simp [keySet, sampleKeys, List.map_map, keySet_nil]
    rfl
  | error e => simp [keySet_nil]

theorem run_of_error {r : Matcher} {pattern : String} {projectId : Nat}
    {e : ResolverError} (hr : r pattern projectId = .error e) :
    Resolver.run r pattern projectId = [] := by
  unfold Resolver.run
  rw [hr]

theorem mem_keySet_foldl_unionSets {k : IdentityKey} (l : List (List HashableSample))
    (acc : List HashableSample) :
    k ∈ keySet (l.foldl unionSets acc) ↔ k ∈ keySet acc ∨ ∃ s ∈ l, k ∈ keySet s := by
  induction l generalizing acc with
  | nil => simp
  | cons x l ih =>
    simp only [List.foldl_cons, ih, keySet_unionSets, Finset.mem_union, List.mem_cons]
    constructor
    · rintro (( h | h) | ⟨s, hs, h⟩)
      · exact Or.inl h
      · exact Or.inr ⟨x, Or.inl rfl, h⟩
      · exact Or.inr ⟨s, Or.inr hs, h⟩
    · rintro (h | ⟨s, (rfl | hs), h⟩)
      · exact Or.inl (Or.inl h)
      · exact Or.inl (Or.inr h)
      · exact Or.inr ⟨s, hs, h⟩

theorem mem_keySet_foldl_interSets {k : IdentityKey} (cs : List (List HashableSample))
    (c : List HashableSample) :
    k ∈ keySet (cs.foldl interSets c) ↔ k ∈ keySet c ∧ ∀ s ∈ cs, k ∈ keySet s := by
  induction cs generalizing c with
  | nil => simp
  | cons x cs ih =>
    simp only [List.foldl_cons, ih, keySet_interSets, Finset.mem_inter, List.mem_cons]
    constructor
    · rintro ⟨⟨hc, hx⟩, hall⟩
      refine ⟨hc, ?_⟩
      rintro s (rfl | hs)
      · exact hx
      · exact hall s hs
    · rintro ⟨hc, hall⟩
      exact ⟨⟨hc, hall x (Or.inl rfl)⟩, fun s hs => hall s (Or.inr hs)⟩

/-! ### The Python-set model never holds two elements with one key -/

theorem nodup_keys_addSample {acc : List HashableSample}
    (h : (acc.map HashableSample.key).Nodup) (x : HashableSample) :
    ((addSample acc x).map HashableSample.key).Nodup := by
  unfold addSample
  split
  · exact h
  · rename_i hcond
    have hx : x.key ∉ acc.map HashableSample.key := by
      intro hmem
      rcases List.mem_map.mp hmem with ⟨y, hy, hyk⟩
      exact hcond (List.any_eq_true.mpr ⟨y, hy, decide_eq_true hyk⟩)
    have hdisj : (acc.map HashableSample.key).Disjoint [x.key] := by
      intro a ha hb
      rw [List.mem_singleton] at hb
      subst hb
      exact hx ha
    have := List.Nodup.append h (List.nodup_singleton x.key) hdisj
    simpa [List.map_append] using this

theorem nodup_keys_foldl_addSample (l : List HashableSample)
    {acc : List HashableSample} (h : (acc.map HashableSample.key).Nodup) :
    ((l.foldl addSample acc).map HashableSample.key).Nodup := by
  induction l generalizing acc with
  | nil => exact h
  | cons x l ih => exact ih (nodup_keys_addSample h x)

theorem nodup_keys_run (r : Matcher) (pattern : String) (projectId : Nat) :
    ((Resolver.run r pattern projectId).map HashableSample.key).Nodup := by
  unfold Resolver.run
  cases r pattern projectId with
  | ok samples =>
    dsimp only
    have hrw : samples.foldl (fun acc s => addSample acc ⟨s⟩) [] =
        (samples.map (fun s => (⟨s⟩ : HashableSample))).foldl addSample [] := by
      rw [List.foldl_map]
    rw [hrw]
    exact nodup_keys_foldl_addSample _ (by simp)
  | error e => simp

theorem nodup_keys_foldl_unionSets (l : List (List HashableSample))
    {acc : List HashableSample} (h : (acc.map HashableSample.key).Nodup) :
    ((l.foldl unionSets acc).map HashableSample.key).Nodup := by
  induction l generalizing acc with
  | nil => exact h
  | cons x l ih =>
    refine ih ?_
    unfold unionSets
    exact nodup_keys_foldl_addSample x h

theorem nodup_keys_resolveWith (matchers : List Matcher) (project : Project)
    (token : String) :
    ((SampleTokenResolver.resolveWith matchers project token).map
      HashableSample.key).Nodup := by
  unfold SampleTokenResolver.resolveWith
  exact nodup_keys_foldl_unionSets _ (by simp)

/-! ### Characterising the two resolve entry points -/

theorem mem_keySet_resolveWith {k : IdentityKey} (matchers : List Matcher)
    (project : Project) (token : String) :
    k ∈ keySet (SampleTokenResolver.resolveWith matchers project token) ↔
      ∃ r ∈ matchers, ∃ samples,
        r ("%" ++ token ++ "%") project.id = .ok samples ∧ k ∈ sampleKeys samples := by
  unfold SampleTokenResolver.resolveWith
  rw [mem_keySet_foldl_unionSets]
  simp only [keySet_nil, Finset.not_mem_empty, false_or, List.mem_map]
  constructor
  · rintro ⟨s, ⟨r, hr, rfl⟩, hk⟩
    rw [keySet_run] at hk
    cases hq : r ("%" ++ token ++ "%") project.id with
    | ok samples =>
      rw [hq] at hk
      exact ⟨r, hr, samples, hq, hk⟩
    | error e =>
      rw [hq] at hk
      exact absurd hk (Finset.not_mem_empty k)
  · rintro ⟨r, hr, samples, hq, hk⟩
    refine ⟨Resolver.run r ("%" ++ token ++ "%") project.id, ⟨r, hr, rfl⟩, ?_⟩
    rw [keySet_run, hq]
    exact hk

theorem resolveWith_ok {get_project : String → Except ResolverError Project}
    {matchers : List Matcher} {tokens : List String} {projectId : String}
    {project : Project} (hgp : get_project projectId = .ok project) :
    SampleResolver.resolveWith get_project matchers tokens projectId =
      .ok (intersectCandidates (candidateResults matchers project tokens)) := by
  unfold SampleResolver.resolveWith candidateResults intersectCandidates
  rw [hgp]
  show (match (tokens.map fun t => SampleTokenResolver.resolveWith matchers project t).filter
      (fun s => decide (0 < s.length)) with
    | [] => pure []
    | c :: cs => pure ((cs.foldl interSets c).map HashableSample.sample) :
      Except ResolverError (List Sample)) = _
  cases (tokens.map fun t => SampleTokenResolver.resolveWith matchers project t).filter
      (fun s => decide (0 < s.length)) with
  | nil => rfl
  | cons c cs => rfl

theorem resolveWith_error {get_project : String → Except ResolverError Project}
    {matchers : List Matcher} {tokens : List String} {projectId : String}
    {e : ResolverError} (hgp : get_project projectId = .error e) :
    SampleResolver.resolveWith get_project matchers tokens projectId = .error e := by
  unfold SampleResolver.resolveWith
  rw [hgp]
  rfl

theorem mem_candidateResults {matchers : List Matcher} {project : Project}
    {tokens : List String} {s : List HashableSample} :
    s ∈ candidateResults matchers project tokens ↔
      (∃ t ∈ tokens, SampleTokenResolver.resolveWith matchers project t = s) ∧
        s ≠ [] := by
  unfold candidateResults
  rw [List.mem_filter]
  simp only [List.mem_map, decide_eq_true_eq]
  constructor
  · rintro ⟨⟨t, ht, rfl⟩, hlen⟩
    exact ⟨⟨t, ht, rfl⟩, List.ne_nil_of_length_pos hlen⟩
  · rintro ⟨⟨t, ht, rfl⟩, hne⟩
    exact ⟨⟨t, ht, rfl⟩, List.length_pos.mpr hne⟩

theorem candidateResults_eq_nil_iff {matchers : List Matcher} {project : Project}
    {tokens : List String} :
    candidateResults matchers project tokens = [] ↔
      ∀ t ∈ tokens, SampleTokenResolver.resolveWith matchers project t = [] := by
  unfold candidateResults
  rw [List.filter_eq_nil_iff]
  constructor
  · intro h t ht
    by_contra hne
    exact h _ (List.mem_map.mpr ⟨t, ht, rfl⟩)
      (decide_eq_true (List.length_pos.mpr hne))
  · rintro h s hs
    rcases List.mem_map.mp hs with ⟨t, ht, rfl⟩
    rw [h t ht]
    simp

theorem mem_sampleKeys_intersectCandidates {k : IdentityKey}
    (l : List (List HashableSample)) :
    k ∈ sampleKeys (intersectCandidates l) ↔ l ≠ [] ∧ ∀ s ∈ l, k ∈ keySet s := by
  cases l with
  | nil => simp [intersectCandidates, sampleKeys]
  | cons c cs =>
    unfold intersectCandidates
    rw [sampleKeys_map_sample, mem_keySet_foldl_interSets]
    simp only [ne_eq, reduceCtorEq, not_false_eq_true, true_and, List.mem_cons]
    constructor
    · rintro ⟨hc, hall⟩
      rintro s (rfl | hs)
      · exact hc
      · exact hall s hs
    · intro hall
      exact ⟨hall c (Or.inl rfl), fun s hs => hall s (Or.inr hs)⟩

/-- Membership in the intersected candidate sets, in terms of the
per-token sets: present iff some token set is non-empty and the key is in
every non-empty token set (the empty ones having been filtered away). -/
theorem mem_keys_intersect_tokens {k : IdentityKey} (matchers : List Matcher)
    (project : Project) (tokens : List String) :
    k ∈ sampleKeys (intersectCandidates (candidateResults matchers project tokens)) ↔
      (∃ t ∈ tokens, SampleTokenResolver.resolveWith matchers project t ≠ []) ∧
        ∀ t ∈ tokens, SampleTokenResolver.resolveWith matchers project t ≠ [] →
          k ∈ keySet (SampleTokenResolver.resolveWith matchers project t) := by
  rw [mem_sampleKeys_intersectCandidates]
  constructor
  · rintro ⟨hne, hall⟩
    rcases List.exists_mem_of_ne_nil _ hne with ⟨s, hs⟩
    rcases mem_candidateResults.mp hs with ⟨⟨t, ht, hts⟩, hsne⟩
    refine ⟨⟨t, ht, hts ▸ hsne⟩, ?_⟩
    intro t' ht' ht'ne
    exact hall _ (mem_candidateResults.mpr ⟨⟨t', ht', rfl⟩, ht'ne⟩)
  · rintro ⟨⟨t, ht, htne⟩, hall⟩
    constructor
    · intro hnil
      exact htne (candidateResults_eq_nil_iff.mp hnil t ht)
    · intro s hs
      rcases mem_candidateResults.mp hs with ⟨⟨t', ht', rfl⟩, hsne⟩
      exact hall t' ht' hsne

/-- Membership in the final key set of a query, in terms of the per-token
sets. -/
theorem mem_resolve_keys {k : IdentityKey}
    {get_project : String → Except ResolverError Project}
    {matchers : List Matcher} {tokens : List String} {projectId : String}
    {project : Project} {res : List Sample}
    (hgp : get_project projectId = .ok project)
    (hres : SampleResolver.resolveWith get_project matchers tokens projectId = .ok res) :
    k ∈ sampleKeys res ↔
      (∃ t ∈ tokens, SampleTokenResolver.resolveWith matchers project t ≠ []) ∧
        ∀ t ∈ tokens, SampleTokenResolver.resolveWith matchers project t ≠ [] →
          k ∈ keySet (SampleTokenResolver.resolveWith matchers project t) := by
  rw [resolveWith_ok hgp] at hres
  cases hres
  exact mem_keys_intersect_tokens matchers project tokens

/-- Membership in the intersection of a family of key sets. -/
theorem mem_interKeySets {k : IdentityKey} (L : List (Finset IdentityKey)) :
    k ∈ interKeySets L ↔ L ≠ [] ∧ ∀ K ∈ L, k ∈ K := by
  have hfold : ∀ (cs : List (Finset IdentityKey)) (c : Finset IdentityKey),
      k ∈ cs.foldl (· ∩ ·) c ↔ k ∈ c ∧ ∀ K ∈ cs, k ∈ K := by
    intro cs
    induction cs with
    | nil => simp
    | cons x cs ih =>
      intro c
      simp only [List.foldl_cons, ih, Finset.mem_inter, List.mem_cons]
      constructor
      · rintro ⟨⟨hc, hx⟩, hall⟩
        refine ⟨hc, ?_⟩
        rintro K (rfl | hK)
        · exact hx
        · exact hall K hK
      · rintro ⟨hc, hall⟩
        exact ⟨⟨hc, hall x (Or.inl rfl)⟩, fun K hK => hall K (Or.inr hK)⟩
  cases L with
  | nil => simp [interKeySets]
  | cons c cs =>
    unfold interKeySets
    rw [hfold]
    simp only [ne_eq, reduceCtorEq, not_false_eq_true, true_and, List.mem_cons]
    constructor
    · rintro ⟨hc, hall⟩
      rintro K (rfl | hK)
      · exact hc
      · exact hall K hK
    · intro hall
      exact ⟨hall c (Or.inl rfl), fun K hK => hall K (Or.inr hK)⟩

/-! ### ILIKE pattern semantics for wrapped wildcard-free tokens -/

theorem likeMatch_append_percent {t : List Char} (hw : noWildcard t = true) :
    ∀ s : List Char, (likeMatch (t ++ ['%']) s = true ↔ lowerChars t <+: lowerChars s) := by
  induction t with
  | nil =>
    intro s
    have hmem : ([] : List Char) ∈ s.tails := (List.mem_tails _ _).mpr List.nil_suffix
    have hm : likeMatch ['%'] s = true := by
      simp only [likeMatch, reduceIte]
      exact List.any_eq_true.mpr ⟨[], hmem, by simp [likeMatch]⟩
    simp [hm, lowerChars]
  | cons c t ih =>
    rw [noWildcard, List.all_cons, Bool.and_eq_true, decide_eq_true_eq] at hw
    obtain ⟨⟨hcp, hcu⟩, hwt⟩ := hw
    intro s
    cases s with
    | nil =>
      simp [likeMatch, hcp, lowerChars]
    | cons d s =>
      simp only [List.cons_append, likeMatch, if_neg hcp, if_neg hcu,
        Bool.and_eq_true, beq_iff_eq, lowerChars, List.map_cons,
        List.cons_prefix_cons]
      exact and_congr Iff.rfl (ih hwt s)

theorem likeMatch_wrapped {t : List Char} (hw : noWildcard t = true) (s : List Char) :
    likeMatch ('%' :: (t ++ ['%'])) s = true ↔ lowerChars t <:+: lowerChars s := by
  have hL : likeMatch ('%' :: (t ++ ['%'])) s =
      s.tails.any (fun s' => likeMatch (t ++ ['%']) s') := by
    simp [likeMatch]
  rw [hL, List.any_eq_true]
  constructor
  · rintro ⟨s', hs', hm⟩
    have hsuf : s' <:+ s := (List.mem_tails _ _).mp hs'
    have hpre := (likeMatch_append_percent hw s').mp hm
    exact List.infix_iff_prefix_suffix.mpr
      ⟨lowerChars s', hpre, List.IsSuffix.map Char.toLower hsuf⟩
  · intro hinf
    rcases List.infix_iff_prefix_suffix.mp hinf with ⟨mid, hpre, hsuf⟩
    rcases hsuf with ⟨u, hu⟩
    rcases List.map_eq_append_iff.mp hu.symm with ⟨s₁, s₂, hs, hu1, hu2⟩
    refine ⟨s₂, (List.mem_tails _ _).mpr ⟨s₁, hs.symm⟩, ?_⟩
    refine (likeMatch_append_percent hw s₂).mpr ?_
    simp only [lowerChars] at hpre ⊢
    rw [hu2]
    exact hpre

theorem wrapped_pattern_data (token : String) :
    ("%" ++ token ++ "%").data = '%' :: (token.data ++ ['%']) := by
  cases token
  rfl

/-! ### The claims -/

/-- Claim C1: the claim fails on the code, which the spec itself flags as a
latent defect.  `SampleResolver.resolve` filters out empty per-token sets
before intersecting, so a token with zero hits does not disqualify the
query: with token "zzz" resolving to the empty set, the query
`["alpha", "zzz"]` still returns the two samples matched by "alpha"
instead of the empty sequence the specified dominance rule requires. -/
theorem resolve_skips_empty_token_sets :
    SampleTokenResolver.resolve demoModels ⟨7⟩ "zzz" = [] ∧
    SampleResolver.resolve demoModels ["alpha", "zzz"] "P7" = .ok [s1, s2] ∧
    [s1, s2] ≠ ([] : List Sample) := by
  refine ⟨rfl, rfl, by decide⟩

/-- Claim C2 counterexample: for the token sequence `["beta", "zzz"]` in
the demo collaborator, `resolve` returns the sample matched by "beta" even
though the identity-keyed intersection of the per-token sets over ALL
tokens is empty, because the empty "zzz" set is filtered out before
intersecting. -/
theorem resolve_not_intersection_over_all_tokens :
    SampleResolver.resolve demoModels ["beta", "zzz"] "P7" = .ok [s2] ∧
    interKeySets (["beta", "zzz"].map
      (fun t => keySet (SampleTokenResolver.resolve demoModels ⟨7⟩ t))) = ∅ ∧
    sampleKeys [s2] ≠ ∅ := by
  refine ⟨rfl, by decide, by decide⟩

/-- Claim C2 (amended): for every non-empty token sequence whose per-token
sets are ALL non-empty, the key set of the entities returned by
`SampleResolver.resolve` equals the identity-keyed intersection, over all
tokens, of the per-token sets returned by `SampleTokenResolver.resolve`.
(Without the all-non-empty proviso the code intersects only the non-empty
per-token sets.) -/
theorem resolve_query_intersection (m : Models) (tokens : List String)
    (projectId : String) (project : Project) (res : List Sample)
    (hgp : m.get_project projectId = .ok project)
    (hne : tokens ≠ [])
    (hnonempty : ∀ t ∈ tokens, SampleTokenResolver.resolve m project t ≠ [])
    (hres : SampleResolver.resolve m tokens projectId = .ok res) :
    sampleKeys res = interKeySets (tokens.map
      (fun t => keySet (SampleTokenResolver.resolve m project t))) := by
  ext k
  rw [mem_resolve_keys hgp hres, mem_interKeySets]
  constructor
  · rintro ⟨-, hall⟩
    refine ⟨fun h => hne (List.map_eq_nil_iff.mp h), ?_⟩
    rintro K hK
    rcases List.mem_map.mp hK with ⟨t, ht, rfl⟩
    exact hall t ht (hnonempty t ht)
  · rintro ⟨-, hall⟩
    rcases List.exists_mem_of_ne_nil tokens hne with ⟨t0, ht0⟩
    refine ⟨⟨t0, ht0, hnonempty t0 ht0⟩, ?_⟩
    intro t ht _
    exact hall _ (List.mem_map.mpr ⟨t, ht, rfl⟩)

/-- Witness for the amended C2 at a concrete input: query
`["alpha", "beta"]` against the demo collaborator returns exactly the
sample in both per-token sets. -/
theorem resolve_query_intersection_witness :
    sampleKeys [s2] = interKeySets (["alpha", "beta"].map
      (fun t => keySet (SampleTokenResolver.resolve demoModels ⟨7⟩ t))) :=
  resolve_query_intersection demoModels ["alpha", "beta"] "P7" ⟨7⟩ [s2]
    rfl (by decide) (by decide) rfl

/-- Claim C3: for every token and project scope, an identity key is in the
set returned by `SampleTokenResolver.resolve` iff at least one registered
matcher's query for that (wrapped) token and scope succeeds with a sample
of that key; and each identity key appears at most once in the returned
set, entities reached by two matchers being folded into one element. -/
theorem resolve_token_membership (m : Models) (project : Project) (token : String)
    (k : IdentityKey) :
    (k ∈ keySet (SampleTokenResolver.resolve m project token) ↔
      ∃ r ∈ RESOLVER_TYPES m, ∃ samples,
        r ("%" ++ token ++ "%") project.id = .ok samples ∧ k ∈ sampleKeys samples) ∧
    ((SampleTokenResolver.resolve m project token).map HashableSample.key).Nodup :=
  ⟨mem_keySet_resolveWith (RESOLVER_TYPES m) project token,
   nodup_keys_resolveWith (RESOLVER_TYPES m) project token⟩

/-- Claim C4: a matcher that raises during resolution contributes the
empty set (its run result is `[]`), the whole token resolution is
unchanged if that matcher is replaced by one returning no samples (so the
other matchers' contributions are unaffected), and the query entry point
still completes without surfacing any error whenever the project scope
resolves. -/
theorem matcher_failure_isolated (matchers : List Matcher) (i : Nat)
    (hi : i < matchers.length) (project : Project) (token : String)
    (e : ResolverError) (gp : String → Except ResolverError Project)
    (tokens : List String) (projectId : String) (proj : Project)
    (hfail : matchers.get ⟨i, hi⟩ ("%" ++ token ++ "%") project.id = .error e)
    (hgp : gp projectId = .ok proj) :
    Resolver.run (matchers.get ⟨i, hi⟩) ("%" ++ token ++ "%") project.id = [] ∧
    SampleTokenResolver.resolveWith matchers project token =
      SampleTokenResolver.resolveWith (matchers.set i (fun _ _ => .ok []))
        project token ∧
    isOkResult (SampleResolver.resolveWith gp matchers tokens projectId) = true := by
  refine ⟨run_of_error hfail, ?_, ?_⟩
  · unfold SampleTokenResolver.resolveWith
    have hmap : (matchers.map
          (fun r => Resolver.run r ("%" ++ token ++ "%") project.id)) =
        ((matchers.set i (fun _ _ => .ok [])).map
          (fun r => Resolver.run r ("%" ++ token ++ "%") project.id)) := by
      apply List.ext_getElem
      · simp
      · intro j h1 h2
        rw [List.getElem_map, List.getElem_map, List.getElem_set]
        split
        · rename_i hj
          subst hj
          rw [show matchers[i] = matchers.get ⟨i, hi⟩ from rfl,
            run_of_error hfail]
          rfl
        · rfl
    exact congrArg (List.foldl unionSets []) hmap
  · rw [resolveWith_ok hgp]
    rfl

/-- Witness for C4 at a concrete input: the first of two matchers raises;
its run is empty, the token resolution equals the one with that matcher
replaced by an empty one, and the query still returns ok. -/
theorem matcher_failure_isolated_witness :
    Resolver.run ([failingMatcher, constMatcher].get ⟨0, by decide⟩)
      ("%" ++ "a" ++ "%") (Project.mk 7).id = [] ∧
    SampleTokenResolver.resolveWith [failingMatcher, constMatcher] ⟨7⟩ "a" =
      SampleTokenResolver.resolveWith
        ([failingMatcher, constMatcher].set 0 (fun _ _ => .ok [])) ⟨7⟩ "a" ∧
    isOkResult (SampleResolver.resolveWith demoModels.get_project
      [failingMatcher, constMatcher] ["a"] "P7") = true :=
  matcher_failure_isolated [failingMatcher, constMatcher] 0 (by decide) ⟨7⟩ "a"
    (.queryFailed "boom") demoModels.get_project ["a"] "P7" ⟨7⟩ rfl rfl

/-- Claim C5: when the project id does not resolve, `SampleResolver.resolve`
surfaces the `projectNotFound` error to the caller, and no token
resolution is performed: the result coincides with a resolution that
consults no matchers at all. -/
theorem resolve_query_project_not_found (m : Models) (tokens : List String)
    (projectId : String)
    (hm : m.get_project projectId = .error .projectNotFound) :
    SampleResolver.resolve m tokens projectId = .error .projectNotFound ∧
    SampleResolver.resolve m tokens projectId =
      SampleResolver.resolveWith m.get_project [] tokens projectId := by
  have h1 : SampleResolver.resolve m tokens projectId = .error .projectNotFound :=
    resolveWith_error hm
  have h2 : SampleResolver.resolveWith m.get_project [] tokens projectId =
      Except.error .projectNotFound :=
    resolveWith_error hm
  exact ⟨h1, h1.trans h2.symm⟩

/-- Witness for C5 at a concrete input: the unknown project id "NOPE". -/
theorem resolve_query_project_not_found_witness :
    SampleResolver.resolve demoModels ["alpha"] "NOPE" = .error .projectNotFound ∧
    SampleResolver.resolve demoModels ["alpha"] "NOPE" =
      SampleResolver.resolveWith demoModels.get_project [] ["alpha"] "NOPE" :=
  resolve_query_project_not_found demoModels ["alpha"] "NOPE" rfl

/-- Claim C6: for every resolvable project id, resolving the empty token
sequence returns the empty sequence, without raising. -/
theorem resolve_query_empty_tokens (m : Models) (projectId : String)
    (project : Project) (hgp : m.get_project projectId = .ok project) :
    SampleResolver.resolve m [] projectId = .ok [] :=
  resolveWith_ok hgp

/-- Witness for C6 at a concrete input. -/
theorem resolve_query_empty_tokens_witness :
    SampleResolver.resolve demoModels [] "P7" = .ok [] :=
  resolve_query_empty_tokens demoModels "P7" ⟨7⟩ rfl

/-- Claim C7: two identity keys are equal iff all three components (id,
obfuscated id, project id) are pairwise equal, and equal keys hash
equally. -/
theorem identity_key_eq_iff (a b : Sample) :
    (a.key = b.key ↔
      a.id = b.id ∧ a.obfuscated_id = b.obfuscated_id ∧
        a.project_id = b.project_id) ∧
    (a.key = b.key →
      HashableSample.hashVal ⟨a⟩ = HashableSample.hashVal ⟨b⟩) := by
  constructor
  · unfold Sample.key
    simp [Prod.ext_iff]
  · intro h
    simp [HashableSample.hashVal, HashableSample.key, h]

/-- Witness for C7 at concrete inputs. -/
theorem identity_key_eq_iff_witness :
    (s1.key = s2.key ↔
      s1.id = s2.id ∧ s1.obfuscated_id = s2.obfuscated_id ∧
        s1.project_id = s2.project_id) ∧
    HashableSample.hashVal ⟨s1⟩ = HashableSample.hashVal ⟨s1⟩ :=
  ⟨(identity_key_eq_iff s1 s2).1, (identity_key_eq_iff s1 s1).2 rfl⟩

/-- Claim C8 counterexample: "matching is case-insensitive substring
containment of the literal token" fails for a token that itself contains a
SQL wildcard character: the token "_" is wrapped to the pattern "%_%",
which ILIKE-matches the string "x" although "x" does not contain the
literal substring "_". -/
theorem matcher_pattern_literal_counterexample :
    likeMatch ("%" ++ "_" ++ "%").data ("x" : String).data = true ∧
    ¬ lowerChars ("_" : String).data <:+: lowerChars ("x" : String).data := by
  refine ⟨by decide, by decide⟩

/-- Claim C8 (amended): for every token, the pattern each registered
matcher hands to the persistence collaborator is the token wrapped with
'%' on both sides, compared with the case-insensitive ILIKE; for tokens
free of SQL wildcard characters this is exactly case-insensitive substring
containment of the literal token.  (A wildcard character inside the token
is passed through unescaped, so literal containment can fail for such
tokens.) -/
theorem matcher_pattern_wrapped (m : Models) (project : Project) (token : String)
    (s : List Char) (hw : noWildcard token.data = true) :
    ("%" ++ token ++ "%").data = '%' :: (token.data ++ ['%']) ∧
    SampleTokenResolver.resolve m project token =
      [Resolver.run (SampleNameResolver.resolve m) ("%" ++ token ++ "%") project.id,
       Resolver.run (StageMethodResolver.resolve m) ("%" ++ token ++ "%") project.id,
       Resolver.run (StageAnnotationResolver.resolve m)
         ("%" ++ token ++ "%") project.id].foldl unionSets [] ∧
    (likeMatch ("%" ++ token ++ "%").data s = true ↔
      lowerChars token.data <:+: lowerChars s) := by
  refine ⟨wrapped_pattern_data token, rfl, ?_⟩
  rw [wrapped_pattern_data token]
  exact likeMatch_wrapped hw s

/-- Witness for the amended C8 at a concrete input: token "beta" against
the text "xBETAy". -/
theorem matcher_pattern_wrapped_witness :
    ("%" ++ "beta" ++ "%").data = '%' :: (("beta" : String).data ++ ['%']) ∧
    SampleTokenResolver.resolve demoModels ⟨7⟩ "beta" =
      [Resolver.run (SampleNameResolver.resolve demoModels)
         ("%" ++ "beta" ++ "%") (Project.mk 7).id,
       Resolver.run (StageMethodResolver.resolve demoModels)
         ("%" ++ "beta" ++ "%") (Project.mk 7).id,
       Resolver.run (StageAnnotationResolver.resolve demoModels)
         ("%" ++ "beta" ++ "%") (Project.mk 7).id].foldl unionSets [] ∧
    (likeMatch ("%" ++ "beta" ++ "%").data ("xBETAy" : String).data = true ↔
      lowerChars ("beta" : String).data <:+: lowerChars ("xBETAy" : String).data) :=
  matcher_pattern_wrapped demoModels ⟨7⟩ "beta" ("xBETAy" : String).data (by decide)

/-- Claim C9: comparing a wrapped sample for equality with an object that
has no `__key__` method raises `AttributeError` rather than returning
`False`. -/
theorem hashable_eq_without_key_raises (h : HashableSample) (o : PyObj)
    (hno : o.keyMethod = none) :
    HashableSample.pyEq h o = .error .attributeError ∧
    HashableSample.pyEq h o ≠ .ok false := by
  refine ⟨by simp [HashableSample.pyEq, hno], by simp [HashableSample.pyEq, hno]⟩

/-- Witness for C9 at a concrete input: an object with no `__key__`. -/
theorem hashable_eq_without_key_raises_witness :
    HashableSample.pyEq ⟨s1⟩ ⟨none⟩ = .error .attributeError ∧
    HashableSample.pyEq ⟨s1⟩ ⟨none⟩ ≠ .ok false :=
  hashable_eq_without_key_raises ⟨s1⟩ ⟨none⟩ rfl

/-- Claim C10: removing duplicate tokens from a query never changes the
set of entities returned (nor whether an error is surfaced): repeated
tokens contribute identical per-token sets and intersection is
idempotent. -/
theorem resolve_query_dedup_invariant (m : Models) (tokens : List String)
    (projectId : String) :
    (SampleResolver.resolve m tokens projectId).map sampleKeys =
      (SampleResolver.resolve m tokens.dedup projectId).map sampleKeys := by
  unfold SampleResolver.resolve
  cases hgp : m.get_project projectId with
  | error e =>
    rw [resolveWith_error hgp, resolveWith_error hgp]
  | ok project =>
    rw [resolveWith_ok hgp, resolveWith_ok hgp]
    show Except.ok (sampleKeys _) = Except.ok (sampleKeys _)
    congr 1
    ext k
    rw [mem_keys_intersect_tokens, mem_keys_intersect_tokens]
    simp only [List.mem_dedup]

end Sagittariidae
